import Mathlib

/-!
Verification of the sandboxed file-indexing and relevance-search subsystem
(sparkle-mcp-server): a shallow embedding of `src/security.ts`,
`src/sparkle-folder.ts` and `src/search-engine.ts`, with theorems settling
the behavioural claims about path validation, indexing, relevance scoring
and the ad-hoc searcher.

JavaScript strings are modelled as `String`/`List Char`, JS numbers used for
scores as `ℝ`, timestamps (epoch milliseconds) as `Int`, the 32-bit signed
wrap of the polynomial hash explicitly via `% 2 ^ 32`, and the filesystem as
explicit data passed to the functions that read it.
-/

namespace Sparkle

/-! ## Generic string helpers (JS `startsWith`, `includes`, `split`, `trim`, `toLowerCase`) -/

/-- Does the list start with the given pattern (second argument)? -/
def startsWithL : List Char → List Char → Bool
  | _, [] => true
  | [], _ :: _ => false
  | c :: cs, d :: ds => (c == d) && startsWithL cs ds

/-- JS `String.prototype.includes`: does `s` contain `pat` as a contiguous substring? -/
def hasSubL (s pat : List Char) : Bool :=
  match s with
  | [] => pat.isEmpty
  | _ :: rest => startsWithL s pat || hasSubL rest pat

/-- String-level wrapper for `hasSubL`. -/
def hasSubS (s pat : String) : Bool := hasSubL s.data pat.data

/-- String-level wrapper for `startsWithL` (JS `String.prototype.startsWith`). -/
def startsWithS (s pat : String) : Bool := startsWithL s.data pat.data

/-- Add a character to the front of the first piece of a split result. -/
def consHead (c : Char) : List (List Char) → List (List Char)
  | [] => [[c]]
  | p :: ps => (c :: p) :: ps

/-- Split a character list on a single separator character (used for `/`). -/
def splitChar (sep : Char) : List Char → List (List Char)
  | [] => [[]]
  | c :: rest => if c == sep then [] :: splitChar sep rest else consHead c (splitChar sep rest)

/-- JS `split("\\n")` as it appears in the source: the separator is the
LITERAL two-character sequence backslash-n, not a newline. -/
def splitBackslashN : List Char → List (List Char)
  | [] => [[]]
  | '\\' :: 'n' :: rest => [] :: splitBackslashN rest
  | c :: rest => consHead c (splitBackslashN rest)

/-- Fuel-driven worker for splitting on the regex `/\\s+/` as written in the
source: a separator is a LITERAL backslash followed by one or more `s`
characters (greedy). The fuel is always at least the remaining length, so
the fuel-exhausted branch is unreachable in `splitBackslashS`. -/
def splitBSAux : Nat → List Char → List (List Char)
  | _, [] => [[]]
  | 0, s => [s]
  | Nat.succ f, '\\' :: 's' :: rest => [] :: splitBSAux f (rest.dropWhile (fun c => c == 's'))
  | Nat.succ f, c :: rest => consHead c (splitBSAux f rest)

/-- JS `split(/\\s+/)` as it appears in the source (literal backslash, then
one or more `s`). -/
def splitBackslashS (s : List Char) : List (List Char) := splitBSAux s.length s

/-- Is the character ASCII whitespace (the cases relevant to JS `trim`)? -/
def wsChar (c : Char) : Bool :=
  c == ' ' || c == '\t' || c == '\n' || c == '\r' || c == '\x0b' || c == '\x0c'

/-- JS `String.prototype.trim` on a character list. -/
def trimL (l : List Char) : List Char :=
  ((l.dropWhile wsChar).reverse.dropWhile wsChar).reverse

/-- ASCII lower-casing of one character (JS `toLowerCase` on the inputs used here). -/
def lowerChar (c : Char) : Char :=
  if 65 ≤ c.toNat ∧ c.toNat ≤ 90 then Char.ofNat (c.toNat + 32) else c

/-- ASCII lower-casing of a character list. -/
def toLowerL (l : List Char) : List Char := l.map lowerChar

/-- ASCII lower-casing of a string. -/
def toLowerS (s : String) : String := String.mk (toLowerL s.data)

/-! ## Node `path` primitives (`resolve`, `basename`, `extname`), POSIX flavour -/

/-- Normalise path segments: drop empty and `.` segments, let `..` pop the
last kept segment (and vanish at the root), keep the rest. This is the
lexical normalisation performed by Node `path.resolve`; it does NOT consult
the filesystem and in particular does not resolve symlinks. -/
def normSegs (segs : List (List Char)) : List (List Char) :=
  segs.foldl
    (fun acc seg =>
      if seg.isEmpty || seg == ['.'] then acc
      else if seg == ['.', '.'] then acc.dropLast
      else acc ++ [seg])
    []

/-- Node `path.resolve(p)` with the process working directory `cwd` (assumed
absolute): prepend `cwd` when `p` is relative, then normalise lexically. -/
def resolvePath (cwd p : String) : String :=
  let full := if p.data.head? = some '/' then p.data else cwd.data ++ '/' :: p.data
  String.mk ('/' :: List.intercalate ['/'] (normSegs (splitChar '/' full)))

/-- Node `path.basename` (POSIX): the part after the last slash. -/
def basenameL (s : List Char) : List Char :=
  (s.reverse.takeWhile (fun c => c != '/')).reverse

/-- String-level `path.basename`. -/
def basenameS (s : String) : String := String.mk (basenameL s.data)

/-- Node `path.extname` (POSIX): from the last `.` of the basename to the
end, empty when there is no dot or the only dot starts the basename. -/
def extnameL (s : List Char) : List Char :=
  let b := basenameL s
  let revNoExt := b.reverse.takeWhile (fun c => c != '.')
  if revNoExt.length + 1 < b.length then '.' :: revNoExt.reverse else []

/-- String-level `path.extname`. -/
def extnameS (s : String) : String := String.mk (extnameL s.data)

/-! ## security.ts: `PathValidator` -/

/-- The `SecurityConfig` interface of `security.ts`. -/
structure SecurityConfig where
  allowedPaths : Option (List String)
  blockedPaths : List String
  maxFileSize : Option Nat
  allowSymlinks : Bool

/-- The constructor's `defaultAllowedPaths` (parameterised by the home directory). -/
def defaultAllowedPaths (home : String) : List String :=
  [home, home ++ "/Documents", home ++ "/Downloads", home ++ "/Desktop", home ++ "/Sparkle"]

/-- The constructor's `defaultBlockedPaths` (parameterised by the home directory). -/
def defaultBlockedPaths (home : String) : List String :=
  ["/etc", "/sys", "/proc", "/dev", "/private/etc", "/private/var", "/System",
   "/Library/Security", home ++ "/.ssh", home ++ "/.gnupg", home ++ "/.aws",
   home ++ "/.config/gcloud"]

/-- The effective block list: defaults followed by the configured extras. -/
def blockedList (home : String) (cfg : SecurityConfig) : List String :=
  defaultBlockedPaths home ++ cfg.blockedPaths

/-- The effective allow list: the configured one, or the defaults. -/
def allowedList (home : String) (cfg : SecurityConfig) : List String :=
  cfg.allowedPaths.getD (defaultAllowedPaths home)

/-- `PathValidator.isPathBlocked`: raw string `startsWith` against each
(resolved) blocked root. -/
def isPathBlocked (home : String) (cfg : SecurityConfig) (cwd checkPath : String) : Bool :=
  (blockedList home cfg).any (fun blocked => startsWithS checkPath (resolvePath cwd blocked))

/-- `PathValidator.isPathAllowed`: raw string `startsWith` against each
(resolved) allowed root. -/
def isPathAllowed (home : String) (cfg : SecurityConfig) (cwd checkPath : String) : Bool :=
  (allowedList home cfg).any (fun allowed => startsWithS checkPath (resolvePath cwd allowed))

/-- Filesystem nodes: regular files with a size, directories, and symlinks
with a target path. -/
inductive FKind where
  | file (size : Nat)
  | dir
  | symlink (target : String)
deriving DecidableEq

/-- A filesystem: a finite association of absolute paths to nodes. -/
structure Fs where
  entries : List (String × FKind)

/-- Look a path up in the filesystem. -/
def fsLookup (fs : Fs) (p : String) : Option FKind :=
  (fs.entries.find? (fun e => e.1 == p)).map Prod.snd

/-- Follow symlink chains (with fuel), returning the final path and node. -/
def resolveLink (fs : Fs) : Nat → String → Option (String × FKind)
  | 0, _ => none
  | Nat.succ fuel, p =>
    match fsLookup fs p with
    | some (FKind.symlink t) => resolveLink fs fuel t
    | some k => some (p, k)
    | none => none

/-- What Node `fs.stat` reports. Because `stat` FOLLOWS symlinks, the
`isSymbolicLink` field it reports is always `false`. -/
structure StatInfo where
  isFile : Bool
  size : Nat
  isSymbolicLink : Bool

/-- Node `fs.stat`: follow symlinks, then report on the target. -/
def statFs (fs : Fs) (p : String) : Option StatInfo :=
  (resolveLink fs (fs.entries.length + 1) p).map
    (fun e =>
      match e.2 with
      | FKind.file sz => { isFile := true, size := sz, isSymbolicLink := false }
      | _ => { isFile := false, size := 0, isSymbolicLink := false })

/-- The canonical (symlink-resolved) absolute form of a path, when it exists. -/
def canonicalFs (fs : Fs) (p : String) : Option String :=
  (resolveLink fs (fs.entries.length + 1) p).map Prod.fst

/-- The failure cases of `validatePath`. -/
inductive VError where
  | notFound
  | symlinkDenied
  | accessDeniedBlocked
  | accessDeniedOutside
  | tooLarge
deriving DecidableEq

/-- Is the error an `AccessDenied` in the sense of the specification
(outside allow-list, inside block-list, symlink when disallowed)? -/
def isAccessDenied : VError → Bool
  | VError.symlinkDenied => true
  | VError.accessDeniedBlocked => true
  | VError.accessDeniedOutside => true
  | _ => false

/-- `PathValidator.validatePath`: resolve lexically, stat, check the (dead)
symlink condition, the block list, the allow list, and the size ceiling, in
the source's order. -/
def validatePath (home : String) (cfg : SecurityConfig) (fs : Fs) (cwd requested : String) :
    Except VError String :=
  match statFs fs (resolvePath cwd requested) with
  | none => Except.error VError.notFound
  | some stats =>
    if !cfg.allowSymlinks && stats.isSymbolicLink then Except.error VError.symlinkDenied
    else if isPathBlocked home cfg cwd (resolvePath cwd requested) then
      Except.error VError.accessDeniedBlocked
    else if !isPathAllowed home cfg cwd (resolvePath cwd requested) then
      Except.error VError.accessDeniedOutside
    else if stats.isFile &&
        (match cfg.maxFileSize with
         | some m => decide (0 < m) && decide (m < stats.size)
         | none => false) then Except.error VError.tooLarge
    else Except.ok (resolvePath cwd requested)

/-! ## security.ts: `sanitizeFilename` -/

/-- The global replace of `".."` by the empty string: scan left to right,
removing non-overlapping dot pairs. -/
def removeDotDot : List Char → List Char
  | '.' :: '.' :: rest => removeDotDot rest
  | c :: rest => c :: removeDotDot rest
  | [] => []

/-- Replace every `/` and `\` by `_`. -/
def replaceSlashes (l : List Char) : List Char :=
  l.map (fun c => if c == '/' || c == '\\' then '_' else c)

/-- Replace one leading `.` by `_` (the regex `^\.` is not global). -/
def replaceLeadingDot : List Char → List Char
  | '.' :: rest => '_' :: rest
  | l => l

/-- Node `path.basename(p, ext)`: strip the suffix `ext` when the basename
properly ends with it. -/
def basenameMinusExt (l ext : List Char) : List Char :=
  let b := basenameL l
  if ext.length < b.length && startsWithL b.reverse ext.reverse then
    b.take (b.length - ext.length)
  else b

/-- `PathValidator.sanitizeFilename`: strip `..`, replace slashes, fix a
leading dot, then cap the length at 255 keeping the extension (JS
`substring` clamps a negative end index to 0, as `Nat` subtraction does). -/
def sanitizeFilename (s : String) : String :=
  let sanitized := replaceLeadingDot (replaceSlashes (removeDotDot s.data))
  if 255 < sanitized.length then
    let ext := extnameL sanitized
    let nm := basenameMinusExt sanitized ext
    String.mk (nm.take (255 - ext.length) ++ ext)
  else String.mk sanitized

/-! ## sparkle-folder.ts: data model and indexing -/

/-- The `FileMetadata` interface. Timestamps are epoch milliseconds. -/
structure FileMetadata where
  path : String
  name : String
  size : Nat
  modified : Int
  type : String
  content : Option String
  summary : Option String
  embedding : Option (List ℝ)

/-- `SparkleFolder.getFileType`: extension to category, defaulting to `"other"`. -/
def getFileType (ext : String) : String :=
  (List.lookup ext
    [(".pdf", "document"), (".doc", "document"), (".docx", "document"),
     (".txt", "text"), (".md", "text"), (".jpg", "image"), (".png", "image"),
     (".mp3", "audio"), (".wav", "audio"), (".mp4", "video"), (".mov", "video"),
     (".csv", "data"), (".json", "data"), (".xlsx", "spreadsheet")]).getD "other"

/-- `SparkleFolder.isTextFile`: the text-extension whitelist. -/
def isTextFile (ext : String) : Bool :=
  [".txt", ".md", ".json", ".csv", ".log"].contains ext

/-- `SparkleFolder.generateSummary`: split on the LITERAL two-character
sequence backslash-n (as the source does), keep pieces with non-empty trim,
take three, join with spaces, truncate to 200 characters. -/
def generateSummary (content : String) : String :=
  let lines := (splitBackslashN content.data).filter (fun l => !(trimL l).isEmpty)
  String.mk ((List.intercalate [' '] (lines.take 3)).take 200)

/-- Two's-complement wrap to a signed 32-bit integer (JS `| 0` / `<< 5` / `&`
coercions). -/
def toInt32 (n : Int) : Int := (n + 2 ^ 31) % 2 ^ 32 - 2 ^ 31

/-- One step of `simpleHash`: `hash = ((hash << 5) - hash) + char; hash &= hash`. -/
def simpleHashStep (h : Int) (c : Char) : Int :=
  toInt32 (toInt32 (h * 32) - h + c.toNat)

/-- `SparkleFolder.simpleHash`: polynomial rolling hash with 32-bit signed
wrap, absolute value taken at the end. -/
def simpleHash (s : String) : Nat :=
  (s.data.foldl simpleHashStep 0).natAbs

/-- The text the pseudo-embedding is derived from:
`metadata.content || metadata.name`, where an empty content string is falsy. -/
def contentOrName (md : FileMetadata) : String :=
  match md.content with
  | some c => if c.data.isEmpty then md.name else c
  | none => md.name

/-- The deterministic pseudo-embedding of a text: 128 trigonometric
transforms of the hash. -/
noncomputable def generateEmbeddingText (text : String) : List ℝ :=
  (List.range 128).map (fun (i : ℕ) =>
    Real.sin ((simpleHash text : ℝ) * (i : ℝ)) *
      Real.cos ((simpleHash text : ℝ) / ((i : ℝ) + 1)))

/-- `SparkleFolder.generateEmbedding` on a metadata record. -/
noncomputable def generateEmbedding (md : FileMetadata) : List ℝ :=
  generateEmbeddingText (contentOrName md)

/-- The metadata record `indexFile` constructs for a file, from the stat
results and the (optional, may have failed) text read. -/
noncomputable def mkMetadata (p : String) (sz : Nat) (mt : Int) (readResult : Option String) :
    FileMetadata :=
  let ext := toLowerS (extnameS p)
  let base : FileMetadata :=
    { path := p, name := basenameS p, size := sz, modified := mt,
      type := getFileType ext, content := none, summary := none, embedding := none }
  let md1 :=
    if isTextFile ext then
      match readResult with
      | some c =>
        { base with
          content := some (String.mk (c.data.take 5000)),
          summary := some (generateSummary c) }
      | none => base
    else base
  { md1 with embedding := some (generateEmbedding md1) }

/-- The in-memory index: a JS `Map` from path to metadata, in insertion order. -/
abbrev Index := List (String × FileMetadata)

/-- JS `Map.set`: replace the value in place when the key exists, append otherwise. -/
def mapSet : Index → String → FileMetadata → Index
  | [], k, v => [(k, v)]
  | e :: rest, k, v => if e.1 = k then (k, v) :: rest else e :: mapSet rest k v

/-- JS `Map.delete`. -/
def mapDelete : Index → String → Index
  | [], _ => []
  | e :: rest, k => if e.1 = k then rest else e :: mapDelete rest k

/-- JS `Map.get` (as an `Option`). -/
def lookupIdx : Index → String → Option FileMetadata
  | [], _ => none
  | e :: rest, k => if e.1 = k then some e.2 else lookupIdx rest k

/-- The keys of the index, in order. -/
def keysIdx (idx : Index) : List String := idx.map Prod.fst

/-- `SparkleFolder.indexFile`: build the metadata and store it under the path. -/
noncomputable def indexFile (idx : Index) (p : String) (sz : Nat) (mt : Int)
    (readResult : Option String) : FileMetadata × Index :=
  let md := mkMetadata p sz mt readResult
  (md, mapSet idx p md)

/-- `SparkleFolder.onFileChanged`: re-index in place under the same key. -/
noncomputable def onFileChanged (idx : Index) (p : String) (sz : Nat) (mt : Int)
    (readResult : Option String) : Index :=
  (indexFile idx p sz mt readResult).2

/-- `SparkleFolder.onFileRemoved`: drop the entry. -/
def onFileRemoved (idx : Index) (p : String) : Index := mapDelete idx p

/-- `SparkleFolder.needsBetterName`: the generic-name heuristics exactly as
the source's regexes read. `/^IMG_\\d+/`, `/^DSC\\d+/` and `/^REC\\d+/`
match a LITERAL backslash followed by `d` characters, `/^Screenshot/`,
`/^audio_recording/` and `/^untitled/i` are plain (case-insensitive for the
last) anchored matches. -/
def needsBetterName (md : FileMetadata) : Bool :=
  let n := md.name
  startsWithS n "IMG_\\d" || startsWithS n "DSC\\d" || startsWithS n "Screenshot" ||
    startsWithS n "audio_recording" || startsWithS n "REC\\d" ||
    startsWithS (toLowerS n) "untitled"

/-- `SparkleFolder.enhanceFileName`: the date-prefixed name the rename would
produce (`enhanced_<date>_<name>` in the file's directory). -/
def enhancedPath (p : String) (dateStamp : String) (name : String) : String :=
  String.mk ((p.data.take (p.data.length - (basenameL p.data).length)) ++
    ("enhanced_" ++ dateStamp ++ "_" ++ name).data)

/-- `SparkleFolder.onFileAdded`: index the file, then rename it on disk when
the generic-name heuristic fires. The second component is the rename action
(the new path), `none` when no rename happens; the index itself is not
touched by the rename. -/
noncomputable def onFileAdded (idx : Index) (p : String) (sz : Nat) (mt : Int)
    (readResult : Option String) (dateStamp : String) : Index × Option String :=
  let r := indexFile idx p sz mt readResult
  if needsBetterName r.1 then (r.2, some (enhancedPath p dateStamp r.1.name))
  else (r.2, none)

/-! ## sparkle-folder.ts: relevance scoring and queries -/

/-- `SparkleFolder.cosineSimilarity`: zero on length mismatch or a zero
norm, the normalised dot product otherwise. -/
noncomputable def cosineSimilarity (a b : List ℝ) : ℝ :=
  if a.length = b.length then
    if (a.map (fun x => x * x)).sum = 0 ∨ (b.map (fun x => x * x)).sum = 0 then 0
    else ((a.zip b).map (fun q => q.1 * q.2)).sum /
      (Real.sqrt (a.map (fun x => x * x)).sum * Real.sqrt (b.map (fun x => x * x)).sum)
  else 0

/-- Signal 1 of `calculateRelevance`: semantic similarity, counted only
when a file embedding is present. -/
noncomputable def semanticScore (queryEmbedding fileEmbedding : List ℝ) : ℝ :=
  if 0 < fileEmbedding.length then cosineSimilarity queryEmbedding fileEmbedding * 0.5 else 0

/-- The query keywords: the lower-cased query split on the regex `/\\s+/`
exactly as the source writes it (a LITERAL backslash followed by `s`
characters). -/
def queryWordsOf (query : String) : List (List Char) :=
  splitBackslashS (toLowerL query.data)

/-- Signal 2 of `calculateRelevance`: how many query keywords occur in the
lower-cased filename. -/
def nameMatchCount (query name : String) : Nat :=
  (queryWordsOf query).countP (fun w => hasSubL (toLowerL name.data) w)

/-- Signal 3 of `calculateRelevance`: how many query keywords occur in the
lower-cased content sample. -/
def contentMatchCount (query c : String) : Nat :=
  (queryWordsOf query).countP (fun w => hasSubL (toLowerL c.data) w)

/-- Signal 3 as a score: 0.2 per content keyword hit, 0 without a sample. -/
noncomputable def contentScore (query : String) (content : Option String) : ℝ :=
  match content with
  | some c => 0.2 * (contentMatchCount query c : ℕ)
  | none => 0

/-- Signal 4 of `calculateRelevance`: a 0.1 bonus for files modified within
the last 7 days. -/
noncomputable def recencyScore (modified now : Int) : ℝ :=
  if ((now : ℝ) - (modified : ℝ)) / (1000 * 60 * 60 * 24) < 7 then 0.1 else 0

/-- `SparkleFolder.calculateRelevance`: cosine similarity times 0.5 (when a
file embedding is present), plus 0.3 per query keyword found in the
filename, plus 0.2 per keyword found in the cached content, plus 0.1 when
modified within 7 days, clamped above to 1 by `Math.min`. -/
noncomputable def calculateRelevance (query : String) (md : FileMetadata)
    (queryEmbedding fileEmbedding : List ℝ) (now : Int) : ℝ :=
  min (semanticScore queryEmbedding fileEmbedding
    + 0.3 * (nameMatchCount query md.name : ℕ)
    + contentScore query md.content
    + recencyScore md.modified now) 1

/-- A `FileResult` as returned by `findRelevant`. -/
structure FileResult where
  path : String
  relevance : ℝ
  summary : Option String
  metadata : FileMetadata

/-- Score one index entry against the query. -/
noncomputable def scoreEntry (query : String) (queryEmbedding : List ℝ) (now : Int)
    (e : String × FileMetadata) : FileResult :=
  { path := e.1,
    relevance := calculateRelevance query e.2 queryEmbedding (e.2.embedding.getD []) now,
    summary := e.2.summary, metadata := e.2 }

/-- Stable descending insertion: a new element goes before the first
strictly smaller one, after earlier equal ones (JS stable `sort` with the
comparator `(a, b) => b.relevance - a.relevance`). -/
noncomputable def insertDesc (x : FileResult) : List FileResult → List FileResult
  | [] => [x]
  | y :: ys => if y.relevance ≤ x.relevance then x :: y :: ys else y :: insertDesc x ys

/-- Stable descending sort by relevance. -/
noncomputable def sortDesc (l : List FileResult) : List FileResult :=
  l.foldr insertDesc []

/-- The metadata-shaped record `findRelevant` builds to embed the query. -/
def queryMetadata (q : String) : FileMetadata :=
  { path := "", name := q, size := 0, modified := 0, type := "",
    content := some q, summary := none, embedding := none }

/-- The index state: the path map plus the readiness flag. -/
structure SparkleState where
  fileIndex : Index
  indexReady : Bool

/-- `SparkleFolder.findRelevant` (the post-ready computation): embed the
query, score every entry, sort descending by relevance (stably) and take
the top `limit`. -/
noncomputable def findRelevant (st : SparkleState) (query : String) (limit : Nat)
    (now : Int) : List FileResult :=
  let queryEmbedding := generateEmbedding (queryMetadata query)
  (sortDesc (st.fileIndex.map (scoreEntry query queryEmbedding now))).take limit

/-- The outcome of the initial full scan: the walked files (with their stat
and read results), or a walk failure (for example the root being
inaccessible), which `indexAllFiles` catches. -/
inductive ScanResult where
  | ok (files : List (String × Nat × Int × Option String))
  | walkError

/-- `SparkleFolder.indexAllFiles`: index every walked file; a walk failure
is caught and leaves the index as it was. -/
noncomputable def indexAllFilesModel (scan : ScanResult) (idx : Index) : Index :=
  match scan with
  | ScanResult.walkError => idx
  | ScanResult.ok files =>
    files.foldl (fun i f => (indexFile i f.1 f.2.1 f.2.2.1 f.2.2.2).2) idx

/-- `SparkleFolder.initialize` after `mkdir`: run the initial scan (whose
failure is caught inside `indexAllFiles`), then set the ready flag. -/
noncomputable def initModel (scan : ScanResult) : SparkleState :=
  { fileIndex := indexAllFilesModel scan [], indexReady := true }

/-! ## search-engine.ts: `FileSearchEngine` -/

/-- The text-like whitelist of `shouldSearchContent`. -/
def textTypes : List String :=
  [".txt", ".md", ".json", ".csv", ".log", ".js", ".ts", ".py"]

/-- `FileSearchEngine.shouldSearchContent`:
`fileTypes.length === 0 || fileTypes.some(ft => textTypes.includes(ft))`. -/
def shouldSearchContent (fileTypes : List String) : Bool :=
  fileTypes.isEmpty || fileTypes.any (fun ft => textTypes.contains ft)

/-- The condition in `searchInPath` under which phase two (content search)
runs: phase one produced fewer results than the limit AND
`shouldSearchContent` holds. -/
def contentPhaseRuns (fileTypes : List String) (phaseOneCount limit : Nat) : Bool :=
  decide (phaseOneCount < limit) && shouldSearchContent fileTypes

/-- An ad-hoc search result (relevance as an exact rational). -/
structure AdHocResult where
  path : String
  relevance : ℚ
  matchedContent : Option String
deriving DecidableEq

/-- One content hit: the trimmed path line with the flat relevance 0.7. -/
def grepHit (keyword : String) (l : List Char) : AdHocResult :=
  { path := String.mk (trimL l), relevance := 7 / 10,
    matchedContent := some ("Contains " ++ keyword) }

/-- The `grepSearch` output processing: split the accumulated stdout on the
LITERAL backslash-n sequence (as the source writes `split("\\n")`), keep
the trailing piece as the incomplete line, push each non-blank line (at
most 20) with a flat relevance of 0.7, then flush the non-blank remainder
on close. -/
def grepProcess (out : String) (keyword : String) : List AdHocResult :=
  let pieces := splitBackslashN out.data
  let lines := pieces.dropLast
  let rem := (pieces.getLast?).getD []
  let lineHits := (lines.filter (fun l => !(trimL l).isEmpty)).take 20
  if !(trimL rem).isEmpty && decide (lineHits.length < 20) then
    lineHits.map (grepHit keyword) ++ [grepHit keyword rem]
  else lineHits.map (grepHit keyword)

/-! ## Concrete scenarios used by counterexamples and witnesses -/

/-- A policy allowing exactly `/home/u`, denying symlinks. -/
def c1cfg : SecurityConfig :=
  { allowedPaths := some ["/home/u"], blockedPaths := [], maxFileSize := none,
    allowSymlinks := false }

/-- A filesystem where `/home/u/link` is a symlink escaping to `/secret/x`. -/
def c1fs : Fs :=
  ⟨[("/home/u/link", FKind.symlink "/secret/x"), ("/secret/x", FKind.file 10)]⟩

/-- The default policy (allow and block lists from the constructor defaults). -/
def defCfg : SecurityConfig :=
  { allowedPaths := none, blockedPaths := [], maxFileSize := none, allowSymlinks := false }

/-- A filesystem with a credentials file under the home directory. -/
def c2fs : Fs := ⟨[("/h/.ssh/key", FKind.file 5)]⟩

/-- Metadata with name `x`, no content, last modified at epoch 0. -/
def c3md : FileMetadata :=
  { path := "/S/x", name := "x", size := 1, modified := 0, type := "other",
    content := none, summary := none, embedding := none }

/-- Two adjacent dots somewhere in the list (the substring `..`). -/
def adjDots : List Char → Bool
  | '.' :: '.' :: _ => true
  | _ :: rest => adjDots rest
  | [] => false

/-- A 256-character filename that triggers the length-capping branch of
`sanitizeFilename`. -/
def c10input : String := String.mk (List.replicate 250 'a' ++ ".b.txt".data)

/-! ## Helper lemmas: strings and splitting -/

theorem startsWithL_refl (l : List Char) : startsWithL l l = true := by
  induction l with
  | nil => rfl
  | cons c cs ih => simp [startsWithL, ih]

theorem hasSubL_refl (l : List Char) : hasSubL l l = true := by
  cases l with
  | nil => rfl
  | cons c cs => simp [hasSubL, startsWithL_refl]

theorem splitBSAux_no_backslash : ∀ (f : Nat) (s : List Char), '\\' ∉ s → splitBSAux f s = [s] := by
  intro f s
  induction f, s using splitBSAux.induct with
  | case1 t => intro _; rw [splitBSAux.eq_1]
  | case2 s hne =>
    intro _
    cases s with
    | nil => rfl
    | cons c rest => rfl
  | case3 f rest ih =>
    intro h
    exact absurd (List.mem_cons_self _ _) h
  | case4 f c rest hside ih =>
    intro h
    have hr : '\\' ∉ rest := fun hm => h (List.mem_cons_of_mem _ hm)
    rw [splitBSAux.eq_4 f c rest hside, ih hr]
    rfl

theorem splitBackslashS_no_backslash (s : List Char) (h : '\\' ∉ s) :
    splitBackslashS s = [s] := splitBSAux_no_backslash _ s h

theorem lowerChar_ne_backslash {c : Char} (h : c ≠ '\\') : lowerChar c ≠ '\\' := by
  unfold lowerChar
  split
  · rename_i hAZ
    intro heq
    have htw : (Char.ofNat (c.toNat + 32)).toNat = c.toNat + 32 := by
      have hlt : c.toNat + 32 < 0xd800 := by omega
      unfold Char.ofNat
      rw [dif_pos (Or.inl hlt)]
      rfl
    have h92 : c.toNat + 32 = 92 := by rw [← htw, heq]; rfl
    omega
  · exact h

theorem toLowerL_no_backslash {l : List Char} (h : '\\' ∉ l) : '\\' ∉ toLowerL l := by
  intro hm
  rcases List.mem_map.mp hm with ⟨c, hc, hlc⟩
  exact lowerChar_ne_backslash (fun hcn => h (hcn ▸ hc)) hlc

/-! ## Helper lemmas: index operations -/

theorem mapSet_mapSet (idx : Index) (k : String) (v : FileMetadata) :
    mapSet (mapSet idx k v) k v = mapSet idx k v := by
  induction idx with
  | nil => simp [mapSet]
  | cons e rest ih =>
    by_cases hk : e.1 = k
    · simp [mapSet, hk]
    · rw [show mapSet (e :: rest) k v = e :: mapSet rest k v from by simp [mapSet, hk],
        show mapSet (e :: mapSet rest k v) k v = e :: mapSet (mapSet rest k v) k v from by
          simp [mapSet, hk],
        ih]

theorem mem_mapSet_self (idx : Index) (k : String) (v : FileMetadata) :
    (k, v) ∈ mapSet idx k v := by
  induction idx with
  | nil => simp [mapSet]
  | cons e rest ih =>
    by_cases hk : e.1 = k
    · simp [mapSet, hk]
    · rw [show mapSet (e :: rest) k v = e :: mapSet rest k v from by simp [mapSet, hk]]
      exact List.mem_cons_of_mem _ ih

theorem lookupIdx_mapSet_self (idx : Index) (k : String) (v : FileMetadata) :
    lookupIdx (mapSet idx k v) k = some v := by
  induction idx with
  | nil => simp [mapSet, lookupIdx]
  | cons e rest ih =>
    by_cases hk : e.1 = k
    · simp [mapSet, hk, lookupIdx]
    · rw [show mapSet (e :: rest) k v = e :: mapSet rest k v from by simp [mapSet, hk]]
      simp only [lookupIdx, if_neg hk]
      exact ih

theorem lookupIdx_mapSet_ne (idx : Index) (k q : String) (v : FileMetadata) (h : q ≠ k) :
    lookupIdx (mapSet idx k v) q = lookupIdx idx q := by
  have hkq : ¬(k = q) := fun hh => h hh.symm
  induction idx with
  | nil => simp [mapSet, lookupIdx, hkq]
  | cons e rest ih =>
    by_cases hk : e.1 = k
    · simp [mapSet, hk, lookupIdx, hkq]
    · rw [show mapSet (e :: rest) k v = e :: mapSet rest k v from by simp [mapSet, hk]]
      simp only [lookupIdx]
      by_cases hq : e.1 = q
      · simp [hq]
      · simp [hq, ih]

theorem keysIdx_mapSet (idx : Index) (k : String) (v : FileMetadata) :
    keysIdx (mapSet idx k v) =
      if k ∈ keysIdx idx then keysIdx idx else keysIdx idx ++ [k] := by
  induction idx with
  | nil => simp [mapSet, keysIdx]
  | cons e rest ih =>
    by_cases hk : e.1 = k
    · simp [mapSet, hk, keysIdx]
    · rw [show mapSet (e :: rest) k v = e :: mapSet rest k v from by simp [mapSet, hk]]
      have hke : ¬(k = e.1) := fun hh => hk hh.symm
      simp only [keysIdx, List.map_cons] at ih ⊢
      rw [ih]
      by_cases hm : k ∈ List.map Prod.fst rest
      · simp [hm, List.mem_cons, hke]
      · simp [hm, List.mem_cons, hke]

theorem mem_keysIdx_mapSet (idx : Index) (k : String) (v : FileMetadata) :
    k ∈ keysIdx (mapSet idx k v) := by
  by_cases hm : k ∈ keysIdx idx
  · rw [keysIdx_mapSet, if_pos hm]; exact hm
  · rw [keysIdx_mapSet, if_neg hm]; simp

theorem nodup_keysIdx_mapSet (idx : Index) (k : String) (v : FileMetadata)
    (h : (keysIdx idx).Nodup) : (keysIdx (mapSet idx k v)).Nodup := by
  by_cases hm : k ∈ keysIdx idx
  · rw [keysIdx_mapSet, if_pos hm]; exact h
  · rw [keysIdx_mapSet, if_neg hm]; simp [List.nodup_append, h, hm]

theorem count_keysIdx_mapSet (idx : Index) (k : String) (v : FileMetadata)
    (h : (keysIdx idx).Nodup) : (keysIdx (mapSet idx k v)).count k = 1 :=
  List.count_eq_one_of_mem (nodup_keysIdx_mapSet idx k v h) (mem_keysIdx_mapSet idx k v)

/-! ## Claim C1: symlinked escapes validate successfully (code bug evidence) -/

/-- C1: the specification says a path that canonicalises (through a
symlink) outside every allowed root must fail with AccessDenied, the
requested path being resolved to its canonical form first. The code
resolves only lexically (`path.resolve`) and uses `fs.stat`, which follows
symlinks, so its `isSymbolicLink()` guard can never fire: the symlink
`/home/u/link` whose canonical form `/secret/x` lies outside the allow
list `["/home/u"]` validates successfully even with `allowSymlinks` off. -/
theorem c1_symlink_escape_validates :
    validatePath "/home/u" c1cfg c1fs "/" "/home/u/link" = Except.ok "/home/u/link"
    ∧ canonicalFs c1fs "/home/u/link" = some "/secret/x"
    ∧ (allowedList "/home/u" c1cfg).all
        (fun a => !(startsWithS "/secret/x" (resolvePath "/" a))) = true
    ∧ c1cfg.allowSymlinks = false := by
  refine ⟨rfl, rfl, by decide, rfl⟩

/-! ## Claim C2: the block list takes precedence over the allow list -/

theorem statFs_not_symlink (fs : Fs) (p : String) (st : StatInfo)
    (h : statFs fs p = some st) : st.isSymbolicLink = false := by
  unfold statFs at h
  cases hr : resolveLink fs (fs.entries.length + 1) p with
  | none => rw [hr] at h; simp at h
  | some e =>
    rw [hr] at h
    have h2 := Option.some_inj.mp h
    obtain ⟨q, kk⟩ := e
    rw [← h2]
    cases kk <;> rfl

/-- C2: whenever the lexically resolved path exists and falls under a
block-list entry (by the code's raw prefix test), `validatePath` fails with
the blocked-directory AccessDenied error — the block check runs before the
allow check, so this holds whether or not an allow-list entry also
matches. -/
theorem c2_blocked_precedence (home : String) (cfg : SecurityConfig) (fs : Fs)
    (cwd p : String) (st : StatInfo)
    (hstat : statFs fs (resolvePath cwd p) = some st)
    (b : String) (hb : b ∈ blockedList home cfg)
    (hpref : startsWithS (resolvePath cwd p) (resolvePath cwd b) = true) :
    validatePath home cfg fs cwd p = Except.error VError.accessDeniedBlocked := by
  unfold validatePath
  rw [hstat]
  have hsym : st.isSymbolicLink = false := statFs_not_symlink fs _ st hstat
  have hblocked : isPathBlocked home cfg cwd (resolvePath cwd p) = true :=
    List.any_eq_true.mpr ⟨b, hb, hpref⟩
  simp [hsym, hblocked]

/-- Witness for C2: `/h/.ssh/key` sits under the allowed home directory
`/h` AND under the default-blocked `/h/.ssh`; validation fails blocked. -/
theorem c2_blocked_precedence_witness :
    startsWithS (resolvePath "/" "/h/.ssh/key") (resolvePath "/" "/h") = true
    ∧ "/h" ∈ allowedList "/h" defCfg
    ∧ validatePath "/h" defCfg c2fs "/" "/h/.ssh/key" = Except.error VError.accessDeniedBlocked :=
  ⟨by decide, by decide,
    c2_blocked_precedence "/h" defCfg c2fs "/" "/h/.ssh/key"
      { isFile := true, size := 5, isSymbolicLink := false } rfl
      "/h/.ssh" (by decide) (by decide)⟩

/-! ## Claim C5: idempotence of the change-event handler -/

/-- C5: handling the same change event twice for an unchanged file is
idempotent: the index after the second event equals the index after the
first, the path occurs exactly once as a key, it maps to the freshly built
metadata, and every other key's entry is untouched. -/
theorem c5_change_idempotent (idx : Index) (p : String) (sz : Nat) (mt : Int)
    (ct : Option String) (h : (keysIdx idx).Nodup) :
    onFileChanged (onFileChanged idx p sz mt ct) p sz mt ct = onFileChanged idx p sz mt ct
    ∧ (keysIdx (onFileChanged (onFileChanged idx p sz mt ct) p sz mt ct)).count p = 1
    ∧ lookupIdx (onFileChanged (onFileChanged idx p sz mt ct) p sz mt ct) p
        = some (mkMetadata p sz mt ct)
    ∧ ∀ q, q ≠ p → lookupIdx (onFileChanged (onFileChanged idx p sz mt ct) p sz mt ct) q
        = lookupIdx idx q := by
  have hunfold : onFileChanged idx p sz mt ct = mapSet idx p (mkMetadata p sz mt ct) := rfl
  have htwice : onFileChanged (onFileChanged idx p sz mt ct) p sz mt ct
      = mapSet (mapSet idx p (mkMetadata p sz mt ct)) p (mkMetadata p sz mt ct) := rfl
  refine ⟨?_, ?_, ?_, ?_⟩
  · rw [htwice, hunfold, mapSet_mapSet]
  · rw [htwice, mapSet_mapSet]
    exact count_keysIdx_mapSet idx p _ h
  · rw [htwice, mapSet_mapSet]
    exact lookupIdx_mapSet_self idx p _
  · intro q hq
    rw [htwice, mapSet_mapSet, lookupIdx_mapSet_ne idx p q _ hq]

/-- Witness for C5 at a concrete empty index and file. -/
theorem c5_change_idempotent_witness :
    onFileChanged (onFileChanged [] "/S/a.txt" 3 0 (some "hi")) "/S/a.txt" 3 0 (some "hi")
      = onFileChanged [] "/S/a.txt" 3 0 (some "hi")
    ∧ (keysIdx (onFileChanged (onFileChanged [] "/S/a.txt" 3 0 (some "hi")) "/S/a.txt" 3 0
        (some "hi"))).count "/S/a.txt" = 1
    ∧ lookupIdx (onFileChanged (onFileChanged [] "/S/a.txt" 3 0 (some "hi")) "/S/a.txt" 3 0
        (some "hi")) "/S/a.txt" = some (mkMetadata "/S/a.txt" 3 0 (some "hi"))
    ∧ lookupIdx (onFileChanged (onFileChanged [] "/S/a.txt" 3 0 (some "hi")) "/S/a.txt" 3 0
        (some "hi")) "/S/b.md" = lookupIdx [] "/S/b.md" := by
  have h := c5_change_idempotent [] "/S/a.txt" 3 0 (some "hi") (by simp [keysIdx])
  exact ⟨h.1, h.2.1, h.2.2.1, h.2.2.2 "/S/b.md" (by decide)⟩

/-! ## Claim C6: a failed full scan still reaches Ready with empty results -/

/-- C6: when the initial walk fails (for example the root directory is
inaccessible), `indexAllFiles` catches the error, the state still becomes
Ready with an empty index, and a subsequent `findRelevant` returns the
empty result list rather than failing. -/
theorem c6_failed_scan_ready :
    (initModel ScanResult.walkError).indexReady = true
    ∧ (initModel ScanResult.walkError).fileIndex = []
    ∧ ∀ (q : String) (limit : Nat) (now : Int),
        findRelevant (initModel ScanResult.walkError) q limit now = [] := by
  refine ⟨rfl, rfl, ?_⟩
  intro q limit now
  simp [findRelevant, initModel, indexAllFilesModel, sortDesc]

/-! ## Claim C8: the stored summary (code bug evidence) -/

/-- C8: the specification says the summary is the first three non-empty
lines joined and truncated to 200 characters. Because the source splits on
the literal two-character sequence backslash-n instead of a newline, a
four-line file keeps its newlines and its fourth line: the whole content
comes back as one "line". -/
theorem c8_summary_literal_split :
    generateSummary "alpha\nbeta\ngamma\ndelta" = "alpha\nbeta\ngamma\ndelta"
    ∧ generateSummary "alpha\nbeta\ngamma\ndelta" ≠ "alpha beta gamma" := by
  refine ⟨by decide, by decide⟩

/-! ## Claim C9: generic camera names are never renamed (code bug evidence) -/

/-- C9: the rename heuristic's regex `/^IMG_\\d+/` matches a literal
backslash, so `IMG_0001.jpg` is NOT considered generic: the add handler
performs no rename and the index keeps the original path. (The mechanism
itself is live: `Screenshot` names do trigger it.) -/
theorem c9_img_not_renamed :
    needsBetterName (mkMetadata "/S/IMG_0001.jpg" 100 0 none) = false
    ∧ (onFileAdded [] "/S/IMG_0001.jpg" 100 0 none "2024-01-01").2 = none
    ∧ keysIdx (onFileAdded [] "/S/IMG_0001.jpg" 100 0 none "2024-01-01").1
        = ["/S/IMG_0001.jpg"]
    ∧ needsBetterName (mkMetadata "/S/Screenshot 1.png" 100 0 none) = true := by
  exact ⟨rfl, rfl, rfl, rfl⟩

/-! ## Claim C7: when the content-search phase runs, and its flat score -/

/-- C7 counterexample: with an empty file-type set (no requested and no
query-implied types at all) the content phase still runs when phase one
under-fills, although no requested or implied type belongs to the
text-like whitelist — `shouldSearchContent` treats an empty set as
searchable. -/
theorem c7_empty_types_counterexample :
    contentPhaseRuns [] 0 5 = true
    ∧ ¬ ∃ t ∈ ([] : List String), t ∈ textTypes := by
  refine ⟨by decide, by simp⟩

/-- C7 (amended): the content phase runs exactly when phase one returned
fewer results than the limit AND the combined requested/query-implied
file-type set is empty or contains a text-whitelisted type; and every
content hit produced by the grep-output processing carries the flat
relevance 0.7. -/
theorem c7_content_phase (fileTypes : List String) (n limit : Nat)
    (out keyword : String) (r : AdHocResult) (hr : r ∈ grepProcess out keyword) :
    (contentPhaseRuns fileTypes n limit = true
      ↔ (n < limit ∧ (fileTypes = [] ∨ ∃ t ∈ fileTypes, t ∈ textTypes)))
    ∧ r.relevance = 7 / 10 := by
  constructor
  · unfold contentPhaseRuns shouldSearchContent
    rw [Bool.and_eq_true, decide_eq_true_eq, Bool.or_eq_true, List.isEmpty_iff,
      List.any_eq_true]
    constructor
    · rintro ⟨hn, hor⟩
      refine ⟨hn, ?_⟩
      rcases hor with hemp | ⟨t, ht, htt⟩
      · exact Or.inl hemp
      · exact Or.inr ⟨t, ht, List.elem_iff.mp htt⟩
    · rintro ⟨hn, hor⟩
      refine ⟨hn, ?_⟩
      rcases hor with hemp | ⟨t, ht, htt⟩
      · exact Or.inl hemp
      · exact Or.inr ⟨t, ht, List.elem_iff.mpr htt⟩
  · simp only [grepProcess] at hr
    split at hr
    · rcases List.mem_append.mp hr with hmem | hmem
      · rcases List.mem_map.mp hmem with ⟨l, _, hl⟩
        rw [← hl]; rfl
      · rw [List.mem_singleton.mp hmem]; rfl
    · rcases List.mem_map.mp hr with ⟨l, _, hl⟩
      rw [← hl]; rfl

/-- Witness for C7 at a concrete under-filled phase one and one grep hit. -/
theorem c7_content_phase_witness :
    (contentPhaseRuns [".md"] 0 5 = true
      ↔ (0 < 5 ∧ ((([".md"] : List String) = []) ∨ ∃ t ∈ [".md"], t ∈ textTypes)))
    ∧ ({ path := "hit.txt", relevance := 7 / 10,
         matchedContent := some "Contains k" } : AdHocResult).relevance = 7 / 10 :=
  c7_content_phase [".md"] 0 5 "hit.txt" "k"
    { path := "hit.txt", relevance := 7 / 10, matchedContent := some "Contains k" }
    (by rw [show grepProcess "hit.txt" "k"
          = [{ path := "hit.txt", relevance := 7 / 10,
               matchedContent := some "Contains k" }] from rfl]; simp)

/-! ## Helper lemmas: the relevance score -/

theorem zip_self_map (a : List ℝ) :
    ((a.zip a).map (fun q => q.1 * q.2)) = a.map (fun x => x * x) := by
  induction a with
  | nil => rfl
  | cons c rest ih => simp [List.zip, ih]

theorem sum_squares_nonneg (a : List ℝ) : 0 ≤ (a.map (fun x => x * x)).sum := by
  apply List.sum_nonneg
  intro x hx
  rcases List.mem_map.mp hx with ⟨y, _, hy⟩
  rw [← hy]
  exact mul_self_nonneg y

theorem cosineSimilarity_self_nonneg (a : List ℝ) : 0 ≤ cosineSimilarity a a := by
  unfold cosineSimilarity
  rw [if_pos rfl]
  by_cases h0 : (a.map (fun x => x * x)).sum = 0
  · rw [if_pos (Or.inl h0)]
  · rw [if_neg (by push_neg; exact ⟨h0, h0⟩), zip_self_map]
    exact div_nonneg (sum_squares_nonneg a)
      (mul_nonneg (Real.sqrt_nonneg _) (Real.sqrt_nonneg _))

theorem semanticScore_nonneg (qe fe : List ℝ) (hc : 0 ≤ cosineSimilarity qe fe) :
    0 ≤ semanticScore qe fe := by
  unfold semanticScore
  split
  · positivity
  · exact le_refl 0

theorem contentScore_nonneg (query : String) (content : Option String) :
    0 ≤ contentScore query content := by
  unfold contentScore
  cases content with
  | none => exact le_refl 0
  | some c => positivity

theorem recencyScore_nonneg (modified now : Int) : 0 ≤ recencyScore modified now := by
  unfold recencyScore
  split
  · norm_num
  · exact le_refl 0

theorem calculateRelevance_le_one (query : String) (md : FileMetadata)
    (qe fe : List ℝ) (now : Int) : calculateRelevance query md qe fe now ≤ 1 :=
  min_le_right _ _

theorem calculateRelevance_nonneg (query : String) (md : FileMetadata)
    (qe fe : List ℝ) (now : Int) (hc : 0 ≤ cosineSimilarity qe fe) :
    0 ≤ calculateRelevance query md qe fe now := by
  unfold calculateRelevance
  refine le_min ?_ (by norm_num)
  have h1 := semanticScore_nonneg qe fe hc
  have h2 : (0 : ℝ) ≤ 0.3 * (nameMatchCount query md.name : ℕ) := by positivity
  have h3 := contentScore_nonneg query md.content
  have h4 := recencyScore_nonneg md.modified now
  linarith

/-! ## Claim C3: the score interval -/

/-- C3 counterexample: the score is NOT always in [0, 1]. The clamp is only
from above; with a query embedding `[1]` and file embedding `[-1]` the
cosine term is -1 and every lexical/recency bonus is 0, so the score is
-0.5 — the weighted sum can be negative. -/
theorem c3_negative_score_counterexample :
    calculateRelevance "z" c3md [1] [(-1 : ℝ)] 864000000 = -(1 / 2)
    ∧ ¬ (0 ≤ calculateRelevance "z" c3md [1] [(-1 : ℝ)] 864000000) := by
  have hcos : cosineSimilarity [1] [(-1 : ℝ)] = -1 := by
    unfold cosineSimilarity
    rw [if_pos (by simp)]
    rw [if_neg (by push_neg; constructor <;> simp)]
    simp [Real.sqrt_one]
  have hsem : semanticScore [1] [(-1 : ℝ)] = -(1 / 2) := by
    unfold semanticScore
    rw [if_pos (by simp), hcos]
    norm_num
  have hname : nameMatchCount "z" c3md.name = 0 := by decide
  have hcontent : contentScore "z" c3md.content = 0 := rfl
  have hrec : recencyScore c3md.modified 864000000 = 0 := by
    unfold recencyScore
    rw [if_neg (by
      show ¬ (((864000000 : Int) : ℝ) - ((c3md.modified : Int) : ℝ)) / (1000 * 60 * 60 * 24) < 7
      show ¬ (((864000000 : Int) : ℝ) - ((0 : Int) : ℝ)) / (1000 * 60 * 60 * 24) < 7
      norm_num)]
  have hval : calculateRelevance "z" c3md [1] [(-1 : ℝ)] 864000000 = -(1 / 2) := by
    unfold calculateRelevance
    rw [hsem, hname, hcontent, hrec]
    norm_num
  exact ⟨hval, by rw [hval]; norm_num⟩

/-- C3 (amended): the score is the weighted sum of the four signals clamped
above to 1; it always lies in [0, 1] when the cosine-similarity term is
nonnegative, and is at most 1 unconditionally (but can be negative when the
cosine similarity is). -/
theorem c3_score_bounds (query : String) (md : FileMetadata) (qe fe : List ℝ)
    (now : Int) (hc : 0 ≤ cosineSimilarity qe fe) :
    0 ≤ calculateRelevance query md qe fe now
    ∧ calculateRelevance query md qe fe now ≤ 1 :=
  ⟨calculateRelevance_nonneg query md qe fe now hc,
   calculateRelevance_le_one query md qe fe now⟩

/-- Witness for C3 (amended) at concrete empty embeddings (cosine 0). -/
theorem c3_score_bounds_witness :
    0 ≤ calculateRelevance "q" (queryMetadata "w") [] [] 0
    ∧ calculateRelevance "q" (queryMetadata "w") [] [] 0 ≤ 1 :=
  c3_score_bounds "q" (queryMetadata "w") [] [] 0
    (by unfold cosineSimilarity; rw [if_pos rfl, if_pos (Or.inl (by simp))])

/-! ## Helper lemmas: sanitizeFilename -/

theorem adjDots_cons (c : Char) (l : List Char) :
    adjDots (c :: l) = (((c == '.') && (l.head? == some ('.' : Char))) || adjDots l) := by
  cases l with
  | nil =>
    rw [adjDots.eq_2 c [] (fun r hc hh => by cases hh)]
    simp [adjDots]
  | cons d ds =>
    by_cases hc : c = '.'
    · by_cases hd : d = '.'
      · subst hc; subst hd
        rw [adjDots.eq_1]
        simp
      · subst hc
        rw [adjDots.eq_2 '.' (d :: ds)
          (by intro r hcc hh; injection hh with h1 h2; exact hd h1)]
        simp [hd]
    · rw [adjDots.eq_2 c (d :: ds) (fun r hcc hh => hc hcc)]
      simp [hc]

theorem hasSub_dotdot_eq_adjDots (l : List Char) : hasSubL l ['.', '.'] = adjDots l := by
  induction l with
  | nil => rfl
  | cons c rest ih =>
    rw [adjDots_cons, hasSubL, ih]
    cases rest with
    | nil => simp [startsWithL]
    | cons d ds =>
      simp only [startsWithL, List.head?]
      by_cases hc : c = '.'
      · by_cases hd : d = '.'
        · simp [hc, hd]
        · simp [hc, hd]
      · simp [hc]

theorem removeDotDot_head_dot (l : List Char)
    (h : (removeDotDot l).head? = some '.') : l.head? = some '.' := by
  induction l using removeDotDot.induct with
  | case1 rest ih => rfl
  | case2 c rest hside ih =>
    rw [removeDotDot.eq_2 c rest hside] at h
    simpa using h
  | case3 => simp [removeDotDot] at h

theorem removeDotDot_adjFree (l : List Char) : adjDots (removeDotDot l) = false := by
  induction l using removeDotDot.induct with
  | case1 rest ih => rw [removeDotDot.eq_1]; exact ih
  | case2 c rest hside ih =>
    rw [removeDotDot.eq_2 c rest hside, adjDots_cons, ih]
    by_cases hc : c = '.'
    · have hrest : rest.head? ≠ some '.' := by
        intro hh
        cases rest with
        | nil => simp at hh
        | cons d ds =>
          simp at hh
          exact hside ds hc (by rw [hh])
      have hrd : (removeDotDot rest).head? ≠ some '.' :=
        fun hh => hrest (removeDotDot_head_dot rest hh)
      have : ((removeDotDot rest).head? == some ('.' : Char)) = false := by
        cases hr : (removeDotDot rest).head? with
        | none => rfl
        | some d =>
          have hd : d ≠ '.' := by rw [hr] at hrd; simpa using hrd
          simpa using hd
      simp [this]
    · simp [hc]
  | case3 => rfl

theorem head_eq_dot_replaceSlashes (l : List Char) :
    ((replaceSlashes l).head? == some ('.' : Char)) = (l.head? == some ('.' : Char)) := by
  cases l with
  | nil => rfl
  | cons c rest =>
    simp only [replaceSlashes, List.map_cons, List.head?]
    by_cases hsl : (c == '/' || c == '\\') = true
    · rw [if_pos hsl]
      rcases Bool.or_eq_true _ _ |>.mp hsl with hcc | hcc
      · rw [show c = '/' from by simpa using hcc]; rfl
      · rw [show c = '\\' from by simpa using hcc]; rfl
    · rw [if_neg hsl]

theorem eq_dot_of_replaceSlashes (c : Char) :
    ((if c == '/' || c == '\\' then '_' else c) == ('.' : Char)) = (c == ('.' : Char)) := by
  by_cases hsl : (c == '/' || c == '\\') = true
  · rw [if_pos hsl]
    rcases Bool.or_eq_true _ _ |>.mp hsl with hcc | hcc
    · rw [show c = '/' from by simpa using hcc]; rfl
    · rw [show c = '\\' from by simpa using hcc]; rfl
  · rw [if_neg hsl]

theorem adjDots_replaceSlashes (l : List Char) :
    adjDots (replaceSlashes l) = adjDots l := by
  induction l with
  | nil => rfl
  | cons c rest ih =>
    have hcons : replaceSlashes (c :: rest)
        = (if c == '/' || c == '\\' then '_' else c) :: replaceSlashes rest := rfl
    rw [hcons, adjDots_cons, adjDots_cons, ih, eq_dot_of_replaceSlashes,
      head_eq_dot_replaceSlashes]

theorem adjDots_replaceLeadingDot (l : List Char) (h : adjDots l = false) :
    adjDots (replaceLeadingDot l) = false := by
  cases l with
  | nil => rfl
  | cons c rest =>
    by_cases hc : c = '.'
    · subst hc
      rw [show replaceLeadingDot ('.' :: rest) = '_' :: rest from rfl, adjDots_cons]
      rw [adjDots_cons] at h
      rcases Bool.or_eq_false_iff.mp h with ⟨_, hrest⟩
      simp [hrest]
    · rw [replaceLeadingDot.eq_2 (c :: rest) (fun r hh => hc (by injection hh))]
      exact h

theorem head_replaceLeadingDot (l : List Char) :
    (replaceLeadingDot l).head? ≠ some '.' := by
  cases l with
  | nil => simp [replaceLeadingDot]
  | cons c rest =>
    by_cases hc : c = '.'
    · subst hc
      rw [show replaceLeadingDot ('.' :: rest) = '_' :: rest from rfl]
      simp
    · rw [replaceLeadingDot.eq_2 (c :: rest) (fun r hh => hc (by injection hh))]
      simpa using hc

theorem mem_replaceSlashes (c : Char) (l : List Char) (h : c ∈ replaceSlashes l) :
    c ≠ '/' ∧ c ≠ '\\' := by
  rcases List.mem_map.mp h with ⟨d, _, hd⟩
  by_cases hsl : (d == '/' || d == '\\') = true
  · rw [if_pos hsl] at hd
    rw [← hd]
    exact ⟨by decide, by decide⟩
  · rw [if_neg hsl] at hd
    rw [← hd]
    rcases Bool.or_eq_false_iff.mp (Bool.not_eq_true _ |>.mp hsl) with ⟨h1, h2⟩
    exact ⟨by simpa using h1, by simpa using h2⟩

theorem mem_replaceLeadingDot (c : Char) (l : List Char) (h : c ∈ replaceLeadingDot l) :
    c = '_' ∨ c ∈ l := by
  cases l with
  | nil => simp [replaceLeadingDot] at h
  | cons d rest =>
    by_cases hd : d = '.'
    · subst hd
      rw [show replaceLeadingDot ('.' :: rest) = '_' :: rest from rfl] at h
      rcases List.mem_cons.mp h with hh | hh
      · exact Or.inl hh
      · exact Or.inr (List.mem_cons_of_mem _ hh)
    · rw [replaceLeadingDot.eq_2 (d :: rest) (fun r hh => hd (by injection hh))] at h
      exact Or.inr h

theorem length_removeDotDot (l : List Char) : (removeDotDot l).length ≤ l.length := by
  induction l using removeDotDot.induct with
  | case1 rest ih =>
    rw [removeDotDot.eq_1]
    simp only [List.length_cons]
    omega
  | case2 c rest hside ih =>
    rw [removeDotDot.eq_2 c rest hside]
    simp only [List.length_cons]
    omega
  | case3 => simp [removeDotDot]

theorem length_replaceLeadingDot (l : List Char) :
    (replaceLeadingDot l).length = l.length := by
  cases l with
  | nil => rfl
  | cons c rest =>
    by_cases hc : c = '.'
    · subst hc; rfl
    · rw [replaceLeadingDot.eq_2 (c :: rest) (fun r hh => hc (by injection hh))]

/-! ## Claim C10: sanitizeFilename safety -/

set_option maxRecDepth 100000 in
/-- C10 counterexample: for a 256-character name `aaaa…a.b.txt` (no slash,
no `..`, not starting with a dot) the length-capping branch truncates the
stem right at a dot and then re-appends the `.txt` extension, producing a
result that CONTAINS `..` — the claimed invariant fails on long names. -/
theorem c10_truncation_counterexample :
    hasSubS (sanitizeFilename c10input) ".." = true
    ∧ hasSubS c10input ".." = false
    ∧ c10input.data.length = 256 := by
  refine ⟨by decide, by decide, by decide⟩

/-- C10 (amended): for every input of at most 255 characters (so the
length-capping branch is not taken), the sanitised name contains no `/` or
`\`, contains no `..` substring, and does not begin with `.`. -/
theorem c10_sanitize_safe (s : String) (h : s.data.length ≤ 255) :
    (∀ c ∈ (sanitizeFilename s).data, c ≠ '/' ∧ c ≠ '\\')
    ∧ hasSubS (sanitizeFilename s) ".." = false
    ∧ (sanitizeFilename s).data.head? ≠ some '.' := by
  have hlen : (replaceLeadingDot (replaceSlashes (removeDotDot s.data))).length ≤ 255 := by
    rw [length_replaceLeadingDot]
    calc (replaceSlashes (removeDotDot s.data)).length
        = (removeDotDot s.data).length := List.length_map _ _
      _ ≤ s.data.length := length_removeDotDot s.data
      _ ≤ 255 := h
  have hval : sanitizeFilename s
      = String.mk (replaceLeadingDot (replaceSlashes (removeDotDot s.data))) := by
    unfold sanitizeFilename
    rw [if_neg (by omega)]
  rw [hval]
  refine ⟨?_, ?_, ?_⟩
  · intro c hc
    rcases mem_replaceLeadingDot c _ hc with hu | hmem
    · rw [hu]; exact ⟨by decide, by decide⟩
    · exact mem_replaceSlashes c _ hmem
  · show hasSubL (replaceLeadingDot (replaceSlashes (removeDotDot s.data))) ['.', '.'] = false
    rw [hasSub_dotdot_eq_adjDots]
    exact adjDots_replaceLeadingDot _ (by rw [adjDots_replaceSlashes]; exact removeDotDot_adjFree _)
  · exact head_replaceLeadingDot _

/-- Witness for C10 (amended) at the traversal attempt `../etc/passwd`. -/
theorem c10_sanitize_safe_witness :
    ("../etc/passwd" : String).data.length ≤ 255
    ∧ hasSubS (sanitizeFilename "../etc/passwd") ".." = false
    ∧ (sanitizeFilename "../etc/passwd").data.head? ≠ some '.' :=
  ⟨by decide, (c10_sanitize_safe "../etc/passwd" (by decide)).2.1,
    (c10_sanitize_safe "../etc/passwd" (by decide)).2.2⟩

/-! ## Helper lemmas: sorting and the round-trip query -/

theorem mem_insertDesc (x y : FileResult) (l : List FileResult) :
    x ∈ insertDesc y l ↔ x = y ∨ x ∈ l := by
  induction l with
  | nil => simp [insertDesc]
  | cons z zs ih =>
    unfold insertDesc
    split
    · simp
    · rw [List.mem_cons, ih, List.mem_cons]
      tauto

theorem length_insertDesc (y : FileResult) (l : List FileResult) :
    (insertDesc y l).length = l.length + 1 := by
  induction l with
  | nil => rfl
  | cons z zs ih =>
    unfold insertDesc
    split
    · simp
    · simp [ih]

theorem mem_sortDesc (x : FileResult) (l : List FileResult) :
    x ∈ sortDesc l ↔ x ∈ l := by
  induction l with
  | nil => simp [sortDesc]
  | cons z zs ih =>
    show x ∈ insertDesc z (sortDesc zs) ↔ _
    rw [mem_insertDesc, ih, List.mem_cons]

theorem length_sortDesc (l : List FileResult) : (sortDesc l).length = l.length := by
  induction l with
  | nil => rfl
  | cons z zs ih =>
    show (insertDesc z (sortDesc zs)).length = _
    rw [length_insertDesc, ih, List.length_cons]

theorem length_generateEmbeddingText (t : String) :
    (generateEmbeddingText t).length = 128 := by
  unfold generateEmbeddingText
  rw [List.length_map, List.length_range]

theorem nameMatchCount_self (name : String) (h : '\\' ∉ name.data) :
    1 ≤ nameMatchCount name name := by
  unfold nameMatchCount queryWordsOf
  rw [show splitBackslashS (toLowerL name.data) = [toLowerL name.data] from
    splitBackslashS_no_backslash _ (toLowerL_no_backslash h)]
  simp [List.countP_cons, hasSubL_refl]

theorem calculateRelevance_name_hit (query : String) (md : FileMetadata) (qe fe : List ℝ)
    (now : Int) (hc : 0 ≤ cosineSimilarity qe fe)
    (hn : 1 ≤ nameMatchCount query md.name) :
    (3 : ℝ) / 10 ≤ calculateRelevance query md qe fe now := by
  unfold calculateRelevance
  refine le_min ?_ (by norm_num)
  have h1 := semanticScore_nonneg qe fe hc
  have h3 := contentScore_nonneg query md.content
  have h4 := recencyScore_nonneg md.modified now
  have h2 : (3 : ℝ) / 10 ≤ 0.3 * (nameMatchCount query md.name : ℕ) := by
    have hcast : (1 : ℝ) ≤ (nameMatchCount query md.name : ℕ) := by exact_mod_cast hn
    nlinarith
  linarith

/-! ## Claim C4: the round-trip query -/

/-- The timestamp of the C4 scenario: 20 days (in milliseconds) after the
epoch, at which a file modified at the epoch gets no recency bonus. -/
def c4now : Int := 1728000000

/-- The file of the C4 round trip: `a.txt` with content `hello`, 20 days old. -/
noncomputable def c4mdA : FileMetadata := mkMetadata "/S/a.txt" 5 0 (some "hello")

/-- A second, freshly modified file `za.txt` with the same content (hence
the same pseudo-embedding), whose name also contains `a.txt`. -/
noncomputable def c4mdB : FileMetadata := mkMetadata "/S/za.txt" 5 c4now (some "hello")

/-- The C4 index: `za.txt` indexed first, then `a.txt` (the round-trip file). -/
noncomputable def c4idx : Index :=
  (indexFile (indexFile [] "/S/za.txt" 5 c4now (some "hello")).2
    "/S/a.txt" 5 0 (some "hello")).2

/-- The ready state holding the C4 index. -/
noncomputable def c4state : SparkleState := { fileIndex := c4idx, indexReady := true }

set_option maxRecDepth 40000 in
/-- C4 counterexample: after indexing `/S/a.txt`, querying its exact name
`a.txt` does NOT return it as the top result: the sibling `za.txt` (same
content, hence identical cosine term; name also containing `a.txt`; plus
the recency bonus) always scores at least as high and, being earlier in
the index, stays ahead under the stable descending sort. -/
theorem c4_not_top_counterexample :
    c4mdA.name = "a.txt"
    ∧ (findRelevant c4state "a.txt" 10 c4now).head?.map FileResult.path = some "/S/za.txt"
    ∧ ("/S/za.txt" : String) ≠ "/S/a.txt"
    ∧ lookupIdx c4idx "/S/a.txt" = some c4mdA := by
  have hname : c4mdA.name = "a.txt" := by decide
  have hidx : c4idx = [("/S/za.txt", c4mdB), ("/S/a.txt", c4mdA)] := by
    show mapSet (mapSet [] "/S/za.txt" c4mdB) "/S/a.txt" c4mdA = _
    rw [show mapSet [] "/S/za.txt" c4mdB = [("/S/za.txt", c4mdB)] from rfl]
    show (if ("/S/za.txt" : String) = "/S/a.txt"
        then ("/S/a.txt", c4mdA) :: []
        else ("/S/za.txt", c4mdB) :: mapSet [] "/S/a.txt" c4mdA) = _
    rw [if_neg (by decide)]
    rfl
  have hfe : c4mdB.embedding.getD [] = c4mdA.embedding.getD [] := rfl
  have hlenfe : 0 < (c4mdA.embedding.getD []).length := by
    rw [show c4mdA.embedding.getD []
        = generateEmbeddingText (String.mk ("hello".data.take 5000)) from rfl,
      length_generateEmbeddingText]
    norm_num
  have hrelA : ∀ qe : List ℝ,
      calculateRelevance "a.txt" c4mdA qe (c4mdA.embedding.getD []) c4now
      = min (cosineSimilarity qe (c4mdA.embedding.getD []) * 0.5 + 3 / 10) 1 := by
    intro qe
    unfold calculateRelevance
    have hsem : semanticScore qe (c4mdA.embedding.getD [])
        = cosineSimilarity qe (c4mdA.embedding.getD []) * 0.5 := by
      unfold semanticScore
      rw [if_pos hlenfe]
    have hn : nameMatchCount "a.txt" c4mdA.name = 1 := by decide
    have hcont : contentScore "a.txt" c4mdA.content = 0 := by
      show (0.2 : ℝ) * (contentMatchCount "a.txt" (String.mk ("hello".data.take 5000)) : ℕ) = 0
      rw [show contentMatchCount "a.txt" (String.mk ("hello".data.take 5000)) = 0 from by decide]
      norm_num
    have hrec : recencyScore c4mdA.modified c4now = 0 := by
      rw [show c4mdA.modified = (0 : Int) from rfl]
      unfold recencyScore
      rw [if_neg (by
        show ¬ ((c4now : ℝ) - ((0 : Int) : ℝ)) / (1000 * 60 * 60 * 24) < 7
        rw [show ((c4now : Int) : ℝ) = 1728000000 from by norm_num [c4now]]
        norm_num)]
    rw [hsem, hn, hcont, hrec]
    congr 1
    push_cast
    ring
  have hrelB : ∀ qe : List ℝ,
      calculateRelevance "a.txt" c4mdB qe (c4mdB.embedding.getD []) c4now
      = min (cosineSimilarity qe (c4mdA.embedding.getD []) * 0.5 + 4 / 10) 1 := by
    intro qe
    unfold calculateRelevance
    rw [hfe]
    have hsem : semanticScore qe (c4mdA.embedding.getD [])
        = cosineSimilarity qe (c4mdA.embedding.getD []) * 0.5 := by
      unfold semanticScore
      rw [if_pos hlenfe]
    have hn : nameMatchCount "a.txt" c4mdB.name = 1 := by decide
    have hcont : contentScore "a.txt" c4mdB.content = 0 := by
      show (0.2 : ℝ) * (contentMatchCount "a.txt" (String.mk ("hello".data.take 5000)) : ℕ) = 0
      rw [show contentMatchCount "a.txt" (String.mk ("hello".data.take 5000)) = 0 from by decide]
      norm_num
    have hrec : recencyScore c4mdB.modified c4now = 0.1 := by
      rw [show c4mdB.modified = c4now from rfl]
      unfold recencyScore
      rw [if_pos (by norm_num)]
    rw [hsem, hn, hcont, hrec]
    congr 1
    push_cast
    ring
  refine ⟨hname, ?_, by decide, by
    rw [hidx]
    simp only [lookupIdx]
    rw [if_neg (show ¬("/S/za.txt" : String) = "/S/a.txt" from by decide)]
    simp⟩
  have hle : (scoreEntry "a.txt" (generateEmbedding (queryMetadata "a.txt")) c4now
        ("/S/a.txt", c4mdA)).relevance
      ≤ (scoreEntry "a.txt" (generateEmbedding (queryMetadata "a.txt")) c4now
        ("/S/za.txt", c4mdB)).relevance := by
    show calculateRelevance "a.txt" c4mdA _ (c4mdA.embedding.getD []) c4now
      ≤ calculateRelevance "a.txt" c4mdB _ (c4mdB.embedding.getD []) c4now
    rw [hrelA, hrelB]
    exact min_le_min (by linarith) le_rfl
  have hfr : findRelevant c4state "a.txt" 10 c4now
      = (sortDesc [scoreEntry "a.txt" (generateEmbedding (queryMetadata "a.txt")) c4now
            ("/S/za.txt", c4mdB),
          scoreEntry "a.txt" (generateEmbedding (queryMetadata "a.txt")) c4now
            ("/S/a.txt", c4mdA)]).take 10 := by
    unfold findRelevant
    rw [show c4state.fileIndex = c4idx from rfl, hidx]
    rfl
  have hsort : sortDesc [scoreEntry "a.txt" (generateEmbedding (queryMetadata "a.txt")) c4now
        ("/S/za.txt", c4mdB),
      scoreEntry "a.txt" (generateEmbedding (queryMetadata "a.txt")) c4now
        ("/S/a.txt", c4mdA)]
      = [scoreEntry "a.txt" (generateEmbedding (queryMetadata "a.txt")) c4now
          ("/S/za.txt", c4mdB),
        scoreEntry "a.txt" (generateEmbedding (queryMetadata "a.txt")) c4now
          ("/S/a.txt", c4mdA)] := by
    show insertDesc _ (insertDesc _ []) = _
    rw [show insertDesc (scoreEntry "a.txt" (generateEmbedding (queryMetadata "a.txt")) c4now
        ("/S/a.txt", c4mdA)) []
      = [scoreEntry "a.txt" (generateEmbedding (queryMetadata "a.txt")) c4now
        ("/S/a.txt", c4mdA)] from rfl]
    unfold insertDesc
    rw [if_pos hle]
  rw [hfr, hsort]
  rfl

/-- C4 (amended): indexing a file and immediately querying its exact name
returns that file AMONG the results (whenever the limit covers the index),
with relevance at least 0.3 provided the cosine similarity between the
query embedding and the file's embedding is nonnegative; it need not be
the top result. -/
theorem c4_roundtrip_in_results (idx : Index) (p : String) (sz : Nat) (mt : Int)
    (ct : Option String) (limit : Nat) (now : Int)
    (hnb : '\\' ∉ (mkMetadata p sz mt ct).name.data)
    (hlim : (indexFile idx p sz mt ct).2.length ≤ limit)
    (hc : 0 ≤ cosineSimilarity (generateEmbedding (queryMetadata (mkMetadata p sz mt ct).name))
        ((mkMetadata p sz mt ct).embedding.getD [])) :
    ∃ r ∈ findRelevant { fileIndex := (indexFile idx p sz mt ct).2, indexReady := true }
        ((mkMetadata p sz mt ct).name) limit now,
      r.path = p ∧ (3 : ℝ) / 10 ≤ r.relevance := by
  refine ⟨scoreEntry (mkMetadata p sz mt ct).name
      (generateEmbedding (queryMetadata (mkMetadata p sz mt ct).name)) now
      (p, mkMetadata p sz mt ct), ?_, rfl, ?_⟩
  · unfold findRelevant
    have hlen : (sortDesc (((indexFile idx p sz mt ct).2 : Index).map
        (scoreEntry (mkMetadata p sz mt ct).name
          (generateEmbedding (queryMetadata (mkMetadata p sz mt ct).name)) now))).length
        ≤ limit := by
      rw [length_sortDesc, List.length_map]
      exact hlim
    rw [List.take_of_length_le hlen]
    exact (mem_sortDesc _ _).mpr
      (List.mem_map_of_mem _ (mem_mapSet_self idx p (mkMetadata p sz mt ct)))
  · exact calculateRelevance_name_hit _ _ _ _ now hc
      (nameMatchCount_self (mkMetadata p sz mt ct).name hnb)

set_option maxRecDepth 40000 in
/-- Witness for C4 (amended): a single non-text file `pic.png`, whose
embedding is derived from its name, so the query and file embeddings
coincide and the cosine term is the (nonnegative) self-similarity. -/
theorem c4_roundtrip_in_results_witness :
    ∃ r ∈ findRelevant
        { fileIndex := (indexFile [] "/S/pic.png" 4 0 none).2, indexReady := true }
        ((mkMetadata "/S/pic.png" 4 0 none).name) 1 0,
      r.path = "/S/pic.png" ∧ (3 : ℝ) / 10 ≤ r.relevance :=
  c4_roundtrip_in_results [] "/S/pic.png" 4 0 none 1 0 (by decide) (by decide)
    (cosineSimilarity_self_nonneg _)

end Sparkle
